import Mathlib

/-!
Shallow embedding of `server.py`, the quiz-generation backend: the prompt
normaliser `norm`, the deduplicator `dedupe`, the session store with its
eviction sweep `cleanup_sessions`, the page-range extractor
`extract_pdf_text_pages`, and the two request handlers `reset` and `next_20`
modelled as state transitions on the store.  External collaborators (the PDF
library, Python's `hash`, the generative model) are parameters.  Timestamps
(`time.time()`) are modelled as integers.
-/

namespace Server

/-- One multiple-choice question, as the handler sees it: a JSON object with
a `prompt`, four options and an answer.  The prompt is optional, mirroring
the defensive `q.get("prompt", "")` accesses in the source. -/
structure Question where
  prompt : Option String
  optionA : String
  optionB : String
  optionC : String
  optionD : String
  answer : String
deriving DecidableEq

/-- `q.get("prompt", "")`. -/
def getPrompt (q : Question) : String := q.prompt.getD ""

/-- Maximal runs of non-whitespace characters, the character-level embedding
of Python `str.split()` with no separator (which also subsumes the preceding
`.strip()` in `norm`, since `split()` already discards leading and trailing
whitespace). -/
def words (l : List Char) : List (List Char) :=
  (l.splitOnP (fun c => c.isWhitespace)).filter (fun w => w ≠ [])

/-- `norm` on the character level:
`" ".join(text.lower().strip().split())`, with Python's `str.lower`
embedded as ASCII lowering (`Char.toLower`). -/
def normChars (l : List Char) : List Char :=
  List.intercalate [' '] (words (l.map Char.toLower))

/-- The source's `norm`: lower-case, trim, and collapse each whitespace run
to a single space. -/
def norm (text : String) : String := ⟨normChars text.data⟩

/-- Normalisation key of a question: the source computes
`norm(q.get("prompt", ""))` at every use site. -/
def qkey (q : Question) : String := norm (getPrompt q)

/-- The loop of `dedupe`, with the mutable `seen` set made explicit (only
membership of `seen` matters, so it is carried as a list). -/
def dedupeGo (seen : List String) : List Question → List Question
  | [] => []
  | q :: qs =>
    let key := qkey q
    if key ≠ "" ∧ key ∉ seen then q :: dedupeGo (key :: seen) qs
    else dedupeGo seen qs

/-- `dedupe(existing_mcq, new_mcq)`: keep those members of `new_mcq` whose
normalisation key is non-empty and neither seen earlier in `new_mcq` nor
among the keys of `existing_mcq`. -/
def dedupe (existing_mcq new_mcq : List Question) : List Question :=
  dedupeGo (existing_mcq.map qkey) new_mcq

/-- A session record `{"pdf_hash": ..., "mcq": [...], "updated": ...}`. -/
structure Session where
  pdf_hash : Int
  mcq : List Question
  updated : Int
deriving DecidableEq

/-- The global `SESSIONS` dict: an insertion-ordered mapping from session id
to session record, modelled as an association list (a reachable store never
holds two entries with the same key). -/
abbrev Store := List (String × Session)

def MAX_SESSIONS : Nat := 200

def SESSION_TTL_SECONDS : Int := 6 * 60 * 60

/-- `SESSIONS.get(sid)`. -/
def lookup (sessions : Store) (sid : String) : Option Session :=
  (sessions.find? (fun kv => kv.1 == sid)).map (fun kv => kv.2)

/-- In-place mutation of the record stored under `sid`; dict insertion order
is preserved. -/
def update (sessions : Store) (sid : String) (s : Session) : Store :=
  sessions.map (fun kv => if kv.1 == sid then (sid, s) else kv)

/-- `cleanup_sessions()`: pop every session whose last-touched timestamp is
more than `SESSION_TTL_SECONDS` old, then, if more than `MAX_SESSIONS`
survive, pop the least-recently-touched surplus (Python's stable `sorted` by
the `updated` field is `List.mergeSort`; popping by key is a filter because
keys are distinct). -/
def cleanup_sessions (now : Int) (sessions : Store) : Store :=
  let kept := sessions.filter (fun kv => now - kv.2.updated ≤ SESSION_TTL_SECONDS)
  if kept.length > MAX_SESSIONS then
    let oldest := (kept.mergeSort (fun a b => a.2.updated ≤ b.2.updated)).take
      (kept.length - MAX_SESSIONS)
    kept.filter (fun kv => !(oldest.any (fun e => e.1 == kv.1)))
  else kept

/-- `/api/reset`: run the eviction sweep, then drop the given session id
(an absent or empty `session_id` field drops nothing). -/
def reset (now : Int) (session_id : Option String) (sessions : Store) : Store :=
  let sessions := cleanup_sessions now sessions
  let sid := session_id.getD ""
  if sid = "" then sessions
  else sessions.filter (fun kv => kv.1 != sid)

/-- Python `str.strip()` on the character level. -/
def stripChars (l : List Char) : List Char :=
  ((l.dropWhile Char.isWhitespace).reverse.dropWhile Char.isWhitespace).reverse

/-- Python `str.strip()`. -/
def strip (s : String) : String := ⟨stripChars s.data⟩

/-- `extract_pdf_text_pages(pdf_bytes, start_page, end_page)`.  The external
PDF library is the parameter `readPdf`, taking the raw bytes to the per-page
extractable text (`""` for a page with none, which is what
`page.extract_text() or ""` yields).  Returns
`(text, total_pages, actual_start, actual_end)`. -/
def extract_pdf_text_pages (readPdf : List Nat → List String)
    (pdf_bytes : List Nat) (start_page end_page : Int) :
    String × Nat × Int × Int :=
  let pages := readPdf pdf_bytes
  let total := pages.length
  if total = 0 then ("", 0, 0, 0)
  else
    let start := max 1 (min start_page (total : Int))
    let stop := max 1 (min end_page (total : Int))
    let start' := if stop < start then stop else start
    let stop' := if stop < start then start else stop
    let chunks :=
      (((pages.drop (start' - 1).toNat).take (stop' - start' + 1).toNat).map
        (fun t => strip t)).filter (fun t => t != "")
    (String.intercalate "\n\n" chunks, total, start', stop')

def MAX_CHARS : Nat := 60000

/-- `generate_next_20_from_text(extracted_text, avoid_prompts)`: keep only
the last 80 avoid prompts and at most `MAX_CHARS` characters of text, then
invoke the external generative model (the parameter `model`). -/
def generate_next_20_from_text (model : String → List String → List Question)
    (extracted_text : String) (avoid_prompts : List String) : List Question :=
  let avoid_prompts := avoid_prompts.drop (avoid_prompts.length - 80)
  let extracted_text :=
    if extracted_text.length > MAX_CHARS then ⟨extracted_text.data.take MAX_CHARS⟩
    else extracted_text
  model extracted_text avoid_prompts

/-- The distinct failure responses of `/api/next-20`; each constructor is one
of the distinct `jsonify({"error": ...}), 400` returns in the source. -/
inductive ApiError
  | missingSessionId
  | noPdf
  | emptyPdf
  | badPageBounds
  | pdfMismatch
  | unreadablePdf
  | noTextInRange (total_pages : Nat)
deriving DecidableEq

/-- The user-visible message and HTTP status of each failure response, as
written in the source. -/
def errorResponse : ApiError → String × Nat
  | .missingSessionId => ("Missing session_id", 400)
  | .noPdf => ("No PDF uploaded (field name must be \x27pdf\x27)", 400)
  | .emptyPdf => ("Empty PDF", 400)
  | .badPageBounds => ("Start/End page must be numbers", 400)
  | .pdfMismatch =>
      ("PDF does not match the one you started with. Click Reset and start again.", 400)
  | .unreadablePdf => ("Could not read PDF pages.", 400)
  | .noTextInRange _ =>
      ("No readable text found in that page range. If this PDF is scanned (image-only), text extraction won\u2019t work.", 400)

/-- Result of a `/api/next-20` call: a failure response or the success JSON
`{"mcq": ..., "added": ..., "total_pages": ..., "used_range": ...}`. -/
inductive NextResult
  | failure (e : ApiError)
  | success (mcq : List Question) (added : Nat) (total_pages : Nat)
      (used_start used_end : Int)
deriving DecidableEq

/-- The parts of a `/api/next-20` POST request that the handler reads:
`request.form.get("session_id")`, `request.files.get("pdf")` (already read
into bytes), and the two page-bound form fields. -/
structure Req where
  session_id : Option String
  pdf : Option (List Nat)
  start_page : Option String
  end_page : Option String

/-- The handler's external collaborators: the PDF library, Python's builtin
`hash` on bytes, and the generative model call. -/
structure Env where
  readPdf : List Nat → List String
  hashFn : List Nat → Int
  model : String → List String → List Question

/-- A non-empty run of decimal digits, as a number. -/
def parseDigits (l : List Char) : Option Nat :=
  if l = [] ∨ ¬ l.all (fun c => c.isDigit) then none
  else some (l.foldl (fun n c => 10 * n + (c.toNat - 48)) 0)

/-- Python's `int(str)`: surrounding whitespace is ignored, an optional sign
precedes a non-empty run of decimal digits; anything else raises
`ValueError` (`none` here). -/
def pyInt (s : String) : Option Int :=
  match stripChars s.data with
  | '-' :: ds => (parseDigits ds).map (fun n => -(n : Int))
  | '+' :: ds => (parseDigits ds).map (fun n => (n : Int))
  | ds => (parseDigits ds).map (fun n => (n : Int))

/-- `int(request.form.get("start_page", "1"))` as a fallible parse: `none`
is the `ValueError` case. -/
def parsePage (field : Option String) : Option Int :=
  pyInt (field.getD "1")

/-- The tail of the `/api/next-20` handler, from text extraction onwards:
the two extraction-related input checks, then generation, dedupe-extend of
the session and the success response.  `s` is the session record selected
(or freshly inserted) by the caller, stored under `session_id` in
`sessions`. -/
def next_20_main (env : Env) (now2 : Int) (session_id : String)
    (data : List Nat) (start_page end_page : Int) (s : Session)
    (sessions : Store) : NextResult × Store :=
  let r := extract_pdf_text_pages env.readPdf data start_page end_page
  let extracted_text := r.1
  let total_pages := r.2.1
  let actual_start := r.2.2.1
  let actual_end := r.2.2.2
  if total_pages = 0 then (.failure .unreadablePdf, sessions)
  else if strip extracted_text = "" then
    (.failure (.noTextInRange total_pages), sessions)
  else
    let existing_prompts := s.mcq.map getPrompt
    let new_mcq := generate_next_20_from_text env.model extracted_text existing_prompts
    let new_unique := dedupe s.mcq new_mcq
    let s' : Session := ⟨s.pdf_hash, s.mcq ++ new_unique, now2⟩
    (.success s'.mcq new_unique.length total_pages actual_start actual_end,
      update sessions session_id s')

/-- The `/api/next-20` handler as a state transition on the session store.
`now0`, `now1` and `now2` are the successive values of `time.time()` read by
the eviction sweep, at session creation, and at the final update.  The
branch structure follows the source line by line: eviction sweep, the four
request-validation checks, session initialise-or-validate (note that a fresh
session is inserted *before* extraction), then `next_20_main`. -/
def next_20 (env : Env) (now0 now1 now2 : Int) (req : Req)
    (sessions : Store) : NextResult × Store :=
  let sessions := cleanup_sessions now0 sessions
  let session_id := req.session_id.getD ""
  if session_id = "" then (.failure .missingSessionId, sessions)
  else
    match req.pdf with
    | none => (.failure .noPdf, sessions)
    | some data =>
      if data = [] then (.failure .emptyPdf, sessions)
      else
        match parsePage req.start_page, parsePage req.end_page with
        | some start_page, some end_page =>
          let pdf_hash := env.hashFn data
          match lookup sessions session_id with
          | none =>
            let s : Session := ⟨pdf_hash, [], now1⟩
            next_20_main env now2 session_id data start_page end_page s
              (sessions ++ [(session_id, s)])
          | some s =>
            if s.pdf_hash ≠ pdf_hash then (.failure .pdfMismatch, sessions)
            else next_20_main env now2 session_id data start_page end_page s sessions
        | _, _ => (.failure .badPageBounds, sessions)

/-- Invariant of a single session record: accumulated questions have
pairwise-distinct, non-empty normalisation keys. -/
def SessionInv (s : Session) : Prop :=
  (s.mcq.map qkey).Nodup ∧ ∀ q ∈ s.mcq, qkey q ≠ ""

/-- Invariant of the session store: every stored session satisfies
`SessionInv`. -/
def StoreInv (sessions : Store) : Prop := ∀ kv ∈ sessions, SessionInv kv.2

/-! ### Facts about `norm` -/

theorem toLower_eq (c : Char) :
    c.toLower = if c.toNat ≥ 65 ∧ c.toNat ≤ 90 then Char.ofNat (c.toNat + 32) else c := rfl

theorem toNat_ofNat_lt {n : Nat} (h : n < 55296) : (Char.ofNat n).toNat = n := by
  have hv : n.isValidChar := Or.inl h
  rw [Char.ofNat, dif_pos hv]
  rfl

theorem toLower_idem (c : Char) : c.toLower.toLower = c.toLower := by
  rw [toLower_eq c]
  by_cases h : c.toNat ≥ 65 ∧ c.toNat ≤ 90
  · rw [if_pos h, toLower_eq]
    have ht : (Char.ofNat (c.toNat + 32)).toNat = c.toNat + 32 := toNat_ofNat_lt (by omega)
    rw [ht, if_neg (by omega)]
  · rw [if_neg h, toLower_eq, if_neg h]

/-- Every element of every piece of `splitOnP p l` is an element of `l` that
does not satisfy `p`. -/
theorem mem_splitOnP {p : Char → Bool} {l w : List Char} (hw : w ∈ l.splitOnP p) :
    ∀ c ∈ w, c ∈ l ∧ p c = false := by
  induction l generalizing w with
  | nil =>
    rw [List.splitOnP_nil] at hw
    simp only [List.mem_singleton] at hw
    subst hw
    simp
  | cons x xs ih =>
    rw [List.splitOnP_cons] at hw
    by_cases hx : p x
    · rw [if_pos hx] at hw
      rcases List.mem_cons.mp hw with h | h
      · subst h; simp
      · intro c hc
        have := ih h c hc
        exact ⟨List.mem_cons_of_mem _ this.1, this.2⟩
    · rw [if_neg hx] at hw
      rcases hsp : xs.splitOnP p with _ | ⟨w0, ws⟩
      · exact absurd hsp (List.splitOnP_ne_nil _ _)
      · rw [hsp, List.modifyHead_cons] at hw
        rcases List.mem_cons.mp hw with h | h
        · subst h
          intro c hc
          rcases List.mem_cons.mp hc with h | h
          · subst h
            exact ⟨List.mem_cons_self _ _, by simpa using hx⟩
          · have := ih (by rw [hsp]; exact List.mem_cons_self w0 ws) c h
            exact ⟨List.mem_cons_of_mem _ this.1, this.2⟩
        · intro c hc
          have := ih (by rw [hsp]; exact List.mem_cons_of_mem _ h) c hc
          exact ⟨List.mem_cons_of_mem _ this.1, this.2⟩

/-- Every word produced by `words` is a non-empty run of non-whitespace
characters of the input. -/
theorem mem_words {l w : List Char} (hw : w ∈ words l) :
    w ≠ [] ∧ ∀ c ∈ w, c ∈ l ∧ c.isWhitespace = false := by
  unfold words at hw
  have h1 := List.of_mem_filter hw
  have h2 := List.mem_of_mem_filter hw
  exact ⟨by simpa using h1, mem_splitOnP h2⟩

theorem intercalate_single (s w : List Char) : List.intercalate s [w] = w := by
  simp [List.intercalate]

theorem intercalate_cons₂ (s a b : List Char) (l : List (List Char)) :
    List.intercalate s (a :: b :: l) = a ++ s ++ List.intercalate s (b :: l) := by
  simp [List.intercalate, List.intersperse]

/-- `words` is a left inverse of `" ".join` on lists of non-empty words free
of whitespace. -/
theorem words_intercalate {ws : List (List Char)}
    (h : ∀ w ∈ ws, w ≠ [] ∧ ∀ c ∈ w, c.isWhitespace = false) :
    words (List.intercalate [' '] ws) = ws := by
  induction ws with
  | nil => rfl
  | cons w ws ih =>
    rcases h w (List.mem_cons_self _ _) with ⟨hne, hchars⟩
    cases ws with
    | nil =>
      rw [intercalate_single]
      unfold words
      rw [List.splitOnP_eq_single _ w (fun x hx => by simp [hchars x hx])]
      simp [List.filter, hne]
    | cons w2 ws2 =>
      rw [intercalate_cons₂]
      have hjoin : (w ++ [' '] ++ List.intercalate [' '] (w2 :: ws2)) =
          w ++ ' ' :: List.intercalate [' '] (w2 :: ws2) := by simp
      unfold words
      rw [hjoin,
        List.splitOnP_first _ w (fun x hx => by simp [hchars x hx]) ' ' (by decide) _]
      have ihh := ih (fun v hv => h v (List.mem_cons_of_mem _ hv))
      unfold words at ihh
      rw [List.filter_cons, if_pos (by simpa using hne), ihh]

theorem map_intercalate (f : Char → Char) (s : List Char) (ws : List (List Char)) :
    (List.intercalate s ws).map f = List.intercalate (s.map f) (ws.map (List.map f)) := by
  induction ws with
  | nil => rfl
  | cons w ws ih =>
    cases ws with
    | nil => simp [intercalate_single]
    | cons w2 ws2 =>
      rw [intercalate_cons₂, List.map_append, List.map_append, ih]
      simp only [List.map_cons]
      rw [intercalate_cons₂]

theorem normChars_idem (l : List Char) : normChars (normChars l) = normChars l := by
  unfold normChars
  have hprops : ∀ w ∈ words (l.map Char.toLower),
      w ≠ [] ∧ ∀ c ∈ w, c.isWhitespace = false := by
    intro w hw
    exact ⟨(mem_words hw).1, fun c hc => ((mem_words hw).2 c hc).2⟩
  have hfix : ∀ w ∈ words (l.map Char.toLower), List.map Char.toLower w = w := by
    intro w hw
    have hmem := (mem_words hw).2
    have hid : ∀ c ∈ w, Char.toLower c = c := by
      intro c hc
      obtain ⟨c', _, rfl⟩ := List.mem_map.mp (hmem c hc).1
      exact toLower_idem c'
    calc List.map Char.toLower w = List.map id w := List.map_congr_left hid
      _ = w := List.map_id w
  have hmap : (List.intercalate [' '] (words (l.map Char.toLower))).map Char.toLower
      = List.intercalate [' '] (words (l.map Char.toLower)) := by
    rw [map_intercalate]
    have hsep : ([' '] : List Char).map Char.toLower = [' '] := rfl
    rw [hsep]
    congr 1
    calc (words (l.map Char.toLower)).map (List.map Char.toLower)
        = (words (l.map Char.toLower)).map id := List.map_congr_left hfix
      _ = _ := List.map_id _
  rw [hmap, words_intercalate hprops]

theorem norm_idem (s : String) : norm (norm s) = norm s := by
  simp only [norm]
  exact congrArg String.mk (normChars_idem s.data)

/-! ### Facts about `dedupe` -/

theorem dedupeGo_sublist (seen : List String) (l : List Question) :
    (dedupeGo seen l).Sublist l := by
  induction l generalizing seen with
  | nil => simp [dedupeGo]
  | cons q qs ih =>
    unfold dedupeGo
    by_cases hc : qkey q ≠ "" ∧ qkey q ∉ seen
    · simpa [hc] using (ih (qkey q :: seen)).cons₂ q
    · simpa [hc] using (ih seen).cons q

theorem mem_dedupeGo_key {seen : List String} {l : List Question} {q : Question}
    (h : q ∈ dedupeGo seen l) : qkey q ≠ "" ∧ qkey q ∉ seen := by
  induction l generalizing seen with
  | nil => simp [dedupeGo] at h
  | cons q0 qs ih =>
    unfold dedupeGo at h
    by_cases hc : qkey q0 ≠ "" ∧ qkey q0 ∉ seen
    · rw [if_pos hc] at h
      rcases List.mem_cons.mp h with h | h
      · subst h; exact hc
      · have := ih h
        exact ⟨this.1, fun hm => this.2 (List.mem_cons_of_mem _ hm)⟩
    · rw [if_neg hc] at h
      exact ih h

theorem dedupeGo_keys_nodup (seen : List String) (l : List Question) :
    ((dedupeGo seen l).map qkey).Nodup := by
  induction l generalizing seen with
  | nil => simp [dedupeGo]
  | cons q qs ih =>
    unfold dedupeGo
    by_cases hc : qkey q ≠ "" ∧ qkey q ∉ seen
    · rw [if_pos hc, List.map_cons, List.nodup_cons]
      refine ⟨?_, ih _⟩
      intro hmem
      obtain ⟨q', hq', hkq⟩ := List.mem_map.mp hmem
      exact (mem_dedupeGo_key hq').2 (hkq ▸ List.mem_cons_self _ _)
    · rw [if_neg hc]
      exact ih seen

theorem dedupeGo_first {seen : List String} (pre : List Question) (q : Question)
    (post : List Question) (hkey : qkey q ≠ "") (hseen : qkey q ∉ seen)
    (hpre : qkey q ∉ pre.map qkey) : q ∈ dedupeGo seen (pre ++ q :: post) := by
  induction pre generalizing seen with
  | nil =>
    rw [List.nil_append]
    unfold dedupeGo
    rw [if_pos ⟨hkey, hseen⟩]
    exact List.mem_cons_self _ _
  | cons p pre ih =>
    rw [List.map_cons, List.mem_cons, not_or] at hpre
    rw [List.cons_append]
    unfold dedupeGo
    by_cases hc : qkey p ≠ "" ∧ qkey p ∉ seen
    · rw [if_pos hc]
      refine List.mem_cons_of_mem _ (ih ?_ hpre.2)
      intro hmem
      rcases List.mem_cons.mp hmem with h | h
      · exact hpre.1 h
      · exact hseen h
    · rw [if_neg hc]
      exact ih hseen hpre.2

/-! ### Claim C6 -/

/-- C6: for every input sequence to `dedupe`, a question whose prompt is
empty or missing — equivalently, whose normalisation key is the empty
string — is dropped unconditionally and never appears in the output. -/
theorem C6_empty_prompt_dropped (existing_mcq new_mcq : List Question)
    (q : Question) (hq : qkey q = "") : q ∉ dedupe existing_mcq new_mcq := by
  intro hmem
  exact (mem_dedupeGo_key hmem).1 hq

theorem C6_witness :
    (⟨none, "a", "b", "c", "d", "A"⟩ : Question) ∉
      dedupe [] [⟨none, "a", "b", "c", "d", "A"⟩, ⟨some "x", "", "", "", "", "B"⟩] :=
  C6_empty_prompt_dropped _ _ _ (by decide)

/-! ### Claim C8 -/

/-- C8: normalisation is idempotent, and `dedupe` is order-stable: its
output is a sublist of the incoming sequence (relative order of kept items
is preserved), output keys are pairwise distinct, and the first occurrence
of each admissible normalisation key is kept. -/
theorem C8_norm_idempotent_dedupe_stable :
    (∀ s : String, norm (norm s) = norm s) ∧
    (∀ existing_mcq new_mcq : List Question,
      (dedupe existing_mcq new_mcq).Sublist new_mcq) ∧
    (∀ existing_mcq new_mcq : List Question,
      ((dedupe existing_mcq new_mcq).map qkey).Nodup) ∧
    (∀ (existing_mcq pre post : List Question) (q : Question),
      qkey q ≠ "" → qkey q ∉ existing_mcq.map qkey → qkey q ∉ pre.map qkey →
      q ∈ dedupe existing_mcq (pre ++ q :: post)) :=
  ⟨norm_idem, fun _ _ => dedupeGo_sublist _ _, fun _ _ => dedupeGo_keys_nodup _ _,
    fun _ pre post q h1 h2 h3 => dedupeGo_first pre q post h1 h2 h3⟩

theorem C8_witness :
    norm (norm " A  b ") = norm " A  b " ∧
    (⟨some "x", "", "", "", "", ""⟩ : Question) ∈
      dedupe [] ([⟨some "y", "", "", "", "", ""⟩] ++
        (⟨some "x", "", "", "", "", ""⟩ : Question) :: []) :=
  ⟨C8_norm_idempotent_dedupe_stable.1 " A  b ",
    C8_norm_idempotent_dedupe_stable.2.2.2 [] [⟨some "y", "", "", "", "", ""⟩] []
      ⟨some "x", "", "", "", "", ""⟩ (by decide) (by decide) (by decide)⟩

/-! ### Claim C5 -/

/-- C5: for a readable document (≥ 1 page) `extract_pdf_text_pages` clamps
`start_page` and `end_page` independently into `[1, totalPages]` and swaps
the clamped bounds silently when they are out of order, so the effective
range is `(min cs ce, max cs ce)` of the clamped values and always lies in
`[1, totalPages]`; for an unreadable document (0 pages) it returns the empty
result with `totalPages = 0`. -/
theorem C5_extract_range_clamps (readPdf : List Nat → List String)
    (pdf_bytes : List Nat) (start_page end_page : Int) :
    ((readPdf pdf_bytes).length = 0 →
      extract_pdf_text_pages readPdf pdf_bytes start_page end_page = ("", 0, 0, 0)) ∧
    (0 < (readPdf pdf_bytes).length →
      (extract_pdf_text_pages readPdf pdf_bytes start_page end_page).2.1
          = (readPdf pdf_bytes).length ∧
      (extract_pdf_text_pages readPdf pdf_bytes start_page end_page).2.2.1
          = min (max 1 (min start_page ((readPdf pdf_bytes).length : Int)))
              (max 1 (min end_page ((readPdf pdf_bytes).length : Int))) ∧
      (extract_pdf_text_pages readPdf pdf_bytes start_page end_page).2.2.2
          = max (max 1 (min start_page ((readPdf pdf_bytes).length : Int)))
              (max 1 (min end_page ((readPdf pdf_bytes).length : Int))) ∧
      1 ≤ (extract_pdf_text_pages readPdf pdf_bytes start_page end_page).2.2.1 ∧
      (extract_pdf_text_pages readPdf pdf_bytes start_page end_page).2.2.1
          ≤ (extract_pdf_text_pages readPdf pdf_bytes start_page end_page).2.2.2 ∧
      (extract_pdf_text_pages readPdf pdf_bytes start_page end_page).2.2.2
          ≤ ((readPdf pdf_bytes).length : Int)) := by
  constructor
  · intro h
    simp only [extract_pdf_text_pages]
    rw [if_pos h]
  · intro h
    simp only [extract_pdf_text_pages]
    rw [if_neg (by omega)]
    refine ⟨rfl, ?_, ?_, ?_, ?_, ?_⟩ <;>
      simp only [Int.min_def, Int.max_def] <;> split_ifs <;> first | rfl | omega

theorem C5_witness :
    (extract_pdf_text_pages
        (fun _ => ["p1", "p2", "p3", "p4", "p5", "p6", "p7", "p8", "p9", "p10"])
        [] 0 1000).2.2.1 = 1 ∧
    (extract_pdf_text_pages
        (fun _ => ["p1", "p2", "p3", "p4", "p5", "p6", "p7", "p8", "p9", "p10"])
        [] 0 1000).2.2.2 = 10 ∧
    (extract_pdf_text_pages
        (fun _ => ["p1", "p2", "p3", "p4", "p5", "p6", "p7", "p8", "p9", "p10"])
        [] 5 2).2.2.1 = 2 ∧
    (extract_pdf_text_pages
        (fun _ => ["p1", "p2", "p3", "p4", "p5", "p6", "p7", "p8", "p9", "p10"])
        [] 5 2).2.2.2 = 5 := by
  have h1 := (C5_extract_range_clamps
    (fun _ => ["p1", "p2", "p3", "p4", "p5", "p6", "p7", "p8", "p9", "p10"]) [] 0 1000).2
    (by decide)
  have h2 := (C5_extract_range_clamps
    (fun _ => ["p1", "p2", "p3", "p4", "p5", "p6", "p7", "p8", "p9", "p10"]) [] 5 2).2
    (by decide)
  refine ⟨?_, ?_, ?_, ?_⟩
  · rw [h1.2.1]; decide
  · rw [h1.2.2.1]; decide
  · rw [h2.2.1]; decide
  · rw [h2.2.2.1]; decide

/-! ### Claim C4 -/

/-- C4: after an eviction sweep over a store with distinct keys and distinct
last-touched times, every TTL-expired session is absent; the result is
contained in the set of TTL-survivors (the capacity rule operates on the
post-time-eviction set); if at most `MAX_SESSIONS` survive the time rule the
sweep is exactly the time rule; and otherwise exactly the
least-recently-touched excess is removed: the count drops to `MAX_SESSIONS`
and every session removed by the capacity rule is strictly older than every
surviving one. -/
theorem C4_eviction_policy (now : Int) (sessions : Store)
    (hkeys : (sessions.map Prod.fst).Nodup)
    (htimes : (sessions.map (fun kv => kv.2.updated)).Nodup) :
    (∀ kv ∈ sessions, SESSION_TTL_SECONDS < now - kv.2.updated →
      kv ∉ cleanup_sessions now sessions) ∧
    (∀ kv ∈ cleanup_sessions now sessions,
      kv ∈ sessions.filter (fun kv => now - kv.2.updated ≤ SESSION_TTL_SECONDS)) ∧
    ((sessions.filter (fun kv => now - kv.2.updated ≤ SESSION_TTL_SECONDS)).length
        ≤ MAX_SESSIONS →
      cleanup_sessions now sessions
        = sessions.filter (fun kv => now - kv.2.updated ≤ SESSION_TTL_SECONDS)) ∧
    (MAX_SESSIONS
        < (sessions.filter (fun kv => now - kv.2.updated ≤ SESSION_TTL_SECONDS)).length →
      (cleanup_sessions now sessions).length = MAX_SESSIONS ∧
      ∀ kv ∈ sessions.filter (fun kv => now - kv.2.updated ≤ SESSION_TTL_SECONDS),
        kv ∉ cleanup_sessions now sessions →
        ∀ kv' ∈ cleanup_sessions now sessions, kv.2.updated < kv'.2.updated) := by
  classical
  have hkeptsub : (sessions.filter
      (fun kv => now - kv.2.updated ≤ SESSION_TTL_SECONDS)).Sublist sessions :=
    List.filter_sublist _
  set kept := sessions.filter (fun kv => now - kv.2.updated ≤ SESSION_TTL_SECONDS)
    with hkeptdef
  have hckeq : cleanup_sessions now sessions =
      if kept.length > MAX_SESSIONS then
        kept.filter (fun kv =>
          !(((kept.mergeSort (fun a b => a.2.updated ≤ b.2.updated)).take
            (kept.length - MAX_SESSIONS)).any (fun e => e.1 == kv.1)))
      else kept := rfl
  have hexp : ∀ kv ∈ sessions, SESSION_TTL_SECONDS < now - kv.2.updated → kv ∉ kept := by
    intro kv _ hlate hmem
    have := (List.mem_filter.mp hmem).2
    simp only [decide_eq_true_eq] at this
    omega
  by_cases hlen : kept.length > MAX_SESSIONS
  · rw [if_pos hlen] at hckeq
    set sorted := kept.mergeSort (fun a b => a.2.updated ≤ b.2.updated) with hsorteddef
    set k := kept.length - MAX_SESSIONS with hkdef
    set oldest := sorted.take k with holddef
    have hperm : sorted.Perm kept := List.mergeSort_perm kept _
    have hpair : sorted.Pairwise (fun a b => a.2.updated ≤ b.2.updated) := by
      have hp := @List.sorted_mergeSort (String × Session)
        (fun a b => decide (a.2.updated ≤ b.2.updated))
        (fun a b c hab hbc => by
          simp only [decide_eq_true_eq] at *
          omega)
        (fun a b => by
          simp only [Bool.or_eq_true, decide_eq_true_eq]
          exact Int.le_total a.2.updated b.2.updated)
        kept
      exact hp.imp (fun h => by simpa using h)
    have hkeptfst : (kept.map Prod.fst).Nodup := (hkeptsub.map Prod.fst).nodup hkeys
    have hkeptnodup : kept.Nodup := List.Nodup.of_map Prod.fst hkeptfst
    have hsortnodup : sorted.Nodup := (hperm.nodup_iff).mpr hkeptnodup
    have hsplit : oldest ++ sorted.drop k = sorted := List.take_append_drop k sorted
    have hdisj : ∀ x ∈ sorted.drop k, x ∉ oldest := by
      have hnd := hsortnodup
      rw [← hsplit, List.nodup_append] at hnd
      intro x hx hxo
      exact hnd.2.2 hxo hx
    have hmemold : ∀ kv ∈ kept,
        ((oldest.any (fun e => e.1 == kv.1)) = true ↔ kv ∈ oldest) := by
      intro kv hkv
      constructor
      · intro h
        obtain ⟨e, he, heq⟩ := List.any_eq_true.mp h
        have heq' : e.1 = kv.1 := by simpa using heq
        have hekept : e ∈ kept := hperm.subset (List.take_subset k sorted he)
        have hev : e = kv := List.inj_on_of_nodup_map hkeptfst hekept hkv heq'
        exact hev ▸ he
      · intro h
        exact List.any_eq_true.mpr ⟨kv, h, by simp⟩
    have hres : cleanup_sessions now sessions
        = kept.filter (fun kv => decide (kv ∉ oldest)) := by
      rw [hckeq]
      apply List.filter_congr
      intro kv hkv
      show (!(oldest.any (fun e => e.1 == kv.1))) = decide (kv ∉ oldest)
      by_cases hm : kv ∈ oldest
      · rw [(hmemold kv hkv).mpr hm]
        simp [hm]
      · have h1 : (oldest.any (fun e => e.1 == kv.1)) = false := by
          rw [← Bool.not_eq_true]
          intro hc
          exact hm ((hmemold kv hkv).mp hc)
        rw [h1]
        simp [hm]
    have hfilterdrop :
        (sorted.drop k).filter (fun kv => decide (kv ∉ oldest)) = sorted.drop k :=
      List.filter_eq_self.mpr (fun a ha => by simpa using hdisj a ha)
    have hfilterold : oldest.filter (fun kv => decide (kv ∉ oldest)) = [] :=
      List.filter_eq_nil_iff.mpr (fun a ha => by simpa using ha)
    have hsortfil : sorted.filter (fun kv => decide (kv ∉ oldest)) = sorted.drop k := by
      conv_lhs => rw [← hsplit]
      rw [List.filter_append, hfilterold, hfilterdrop, List.nil_append]
    have hpermres :
        (kept.filter (fun kv => decide (kv ∉ oldest))).Perm (sorted.drop k) := by
      have h1 := (hperm.filter (fun kv => decide (kv ∉ oldest))).symm
      rwa [hsortfil] at h1
    have hlenres : (cleanup_sessions now sessions).length = MAX_SESSIONS := by
      rw [hres, hpermres.length_eq, List.length_drop, hperm.length_eq]
      omega
    have hressub : ∀ kv ∈ cleanup_sessions now sessions, kv ∈ kept := by
      intro kv h
      rw [hres] at h
      exact (List.mem_filter.mp h).1
    have hupdnodup : (kept.map (fun kv => kv.2.updated)).Nodup :=
      (hkeptsub.map (fun kv => kv.2.updated)).nodup htimes
    refine ⟨?_, hressub, ?_, fun _ => ⟨hlenres, ?_⟩⟩
    · intro kv hkv hlate hmem
      exact hexp kv hkv hlate (hressub kv hmem)
    · intro hle
      exact absurd hlen (by omega)
    · intro kv hkv hnot kv' hkv'
      have hkvold : kv ∈ oldest := by
        by_contra hm
        exact hnot (by
          rw [hres]
          exact List.mem_filter.mpr ⟨hkv, by simpa using hm⟩)
      have hkv'k : kv' ∈ kept := hressub kv' hkv'
      have hkv'notold : kv' ∉ oldest := by
        rw [hres] at hkv'
        have h2 := (List.mem_filter.mp hkv').2
        simpa using h2
      have hkv'drop : kv' ∈ sorted.drop k := by
        have hm : kv' ∈ sorted := hperm.mem_iff.mpr hkv'k
        rw [← hsplit] at hm
        rcases List.mem_append.mp hm with h | h
        · exact absurd h hkv'notold
        · exact h
      have hle2 : kv.2.updated ≤ kv'.2.updated := by
        have hp := hpair
        rw [← hsplit] at hp
        exact (List.pairwise_append.mp hp).2.2 kv hkvold kv' hkv'drop
      have hne : kv ≠ kv' := fun he => hnot (he ▸ hkv')
      have hneu : kv.2.updated ≠ kv'.2.updated := fun he =>
        hne (List.inj_on_of_nodup_map hupdnodup hkv hkv'k he)
      omega
  · rw [if_neg hlen] at hckeq
    rw [hckeq]
    refine ⟨fun kv hkv hlate => hexp kv hkv hlate, fun kv h => h, fun _ => rfl, ?_⟩
    intro h
    omega

theorem C4_witness :
    ("a", (⟨0, [], 0⟩ : Session)) ∉
      cleanup_sessions 21601 [("a", ⟨0, [], 0⟩), ("b", ⟨0, [], 10⟩)] ∧
    cleanup_sessions 21601 [("a", ⟨0, [], 0⟩), ("b", ⟨0, [], 10⟩)]
      = [("b", ⟨0, [], 10⟩)] := by
  have h := C4_eviction_policy 21601 [("a", ⟨0, [], 0⟩), ("b", ⟨0, [], 10⟩)]
    (by decide) (by decide)
  refine ⟨h.1 ("a", ⟨0, [], 0⟩) (by decide) (by decide), ?_⟩
  rw [h.2.2.1 (by decide)]
  decide

/-! ### Facts about the store and the `next_20` control flow -/

theorem lookup_update (st : Store) (sid : String) (s' : Session) :
    lookup (update st sid s') sid = (lookup st sid).map (fun _ => s') := by
  induction st with
  | nil => rfl
  | cons kv st ih =>
    by_cases h : (kv.1 == sid) = true
    · have hupd : update (kv :: st) sid s' = (sid, s') :: update st sid s' := by
        simp only [update, List.map_cons, if_pos h]
      have h1 : lookup ((sid, s') :: update st sid s') sid = some s' := by
        unfold lookup
        rw [@List.find?_cons_of_pos _ (fun kv => kv.1 == sid) (sid, s')
          (update st sid s') (by simp)]
        rfl
      have h2 : lookup (kv :: st) sid = some kv.2 := by
        unfold lookup
        rw [@List.find?_cons_of_pos _ (fun kv => kv.1 == sid) kv st h]
        rfl
      rw [hupd, h1, h2]
      rfl
    · have hupd : update (kv :: st) sid s' = kv :: update st sid s' := by
        simp only [update, List.map_cons, if_neg h]
      rw [Bool.not_eq_true] at h
      rw [hupd]
      unfold lookup
      rw [@List.find?_cons_of_neg _ (fun kv => kv.1 == sid) kv
        (update st sid s') (by simp [h]),
        @List.find?_cons_of_neg _ (fun kv => kv.1 == sid) kv st (by simp [h])]
      exact ih

theorem lookup_some_mem {st : Store} {sid : String} {s : Session}
    (h : lookup st sid = some s) : ∃ kv ∈ st, kv.2 = s := by
  unfold lookup at h
  rcases hf : st.find? (fun kv => kv.1 == sid) with _ | kv
  · rw [hf] at h; simp at h
  · rw [hf] at h
    exact ⟨kv, List.mem_of_find?_eq_some hf, by simpa using h⟩

theorem cleanup_subset (now : Int) (sessions : Store) :
    ∀ kv ∈ cleanup_sessions now sessions, kv ∈ sessions := by
  intro kv h
  unfold cleanup_sessions at h
  by_cases hlen : (sessions.filter
      (fun kv => now - kv.2.updated ≤ SESSION_TTL_SECONDS)).length > MAX_SESSIONS
  · rw [if_pos hlen] at h
    exact (List.mem_filter.mp (List.mem_filter.mp h).1).1
  · rw [if_neg hlen] at h
    exact (List.mem_filter.mp h).1

/-- The handler after all four request-validation checks pass. -/
theorem next_20_valid_eq (env : Env) (now0 now1 now2 : Int) (sid : String)
    (data : List Nat) (sp ep : Option String) (a b : Int) (sessions : Store)
    (hsid : sid ≠ "") (hdata : data ≠ [])
    (hsp : parsePage sp = some a) (hep : parsePage ep = some b) :
    next_20 env now0 now1 now2 ⟨some sid, some data, sp, ep⟩ sessions =
      match lookup (cleanup_sessions now0 sessions) sid with
      | none =>
        next_20_main env now2 sid data a b ⟨env.hashFn data, [], now1⟩
          (cleanup_sessions now0 sessions ++ [(sid, ⟨env.hashFn data, [], now1⟩)])
      | some s =>
        if s.pdf_hash ≠ env.hashFn data then
          (.failure .pdfMismatch, cleanup_sessions now0 sessions)
        else next_20_main env now2 sid data a b s (cleanup_sessions now0 sessions) := by
  simp only [next_20, Option.getD_some]
  rw [if_neg hsid, if_neg hdata, hsp, hep]

/-- The tail of the handler on the success path. -/
theorem next_20_main_success (env : Env) (now2 : Int) (sid : String)
    (data : List Nat) (a b : Int) (s : Session) (st : Store)
    (hreadable : (extract_pdf_text_pages env.readPdf data a b).2.1 ≠ 0)
    (htext : strip (extract_pdf_text_pages env.readPdf data a b).1 ≠ "") :
    next_20_main env now2 sid data a b s st =
      (.success
        (s.mcq ++ dedupe s.mcq (generate_next_20_from_text env.model
          (extract_pdf_text_pages env.readPdf data a b).1 (s.mcq.map getPrompt)))
        (dedupe s.mcq (generate_next_20_from_text env.model
          (extract_pdf_text_pages env.readPdf data a b).1 (s.mcq.map getPrompt))).length
        (extract_pdf_text_pages env.readPdf data a b).2.1
        (extract_pdf_text_pages env.readPdf data a b).2.2.1
        (extract_pdf_text_pages env.readPdf data a b).2.2.2,
      update st sid
        ⟨s.pdf_hash,
          s.mcq ++ dedupe s.mcq (generate_next_20_from_text env.model
            (extract_pdf_text_pages env.readPdf data a b).1 (s.mcq.map getPrompt)),
          now2⟩) := by
  simp only [next_20_main]
  rw [if_neg hreadable, if_neg htext]

/-- The tail of the handler on either extraction-related rejection. -/
theorem next_20_main_rejects (env : Env) (now2 : Int) (sid : String)
    (data : List Nat) (a b : Int) (s : Session) (st : Store)
    (hrej : (env.readPdf data).length = 0 ∨
      strip (extract_pdf_text_pages env.readPdf data a b).1 = "") :
    ∃ e, next_20_main env now2 sid data a b s st = (.failure e, st) ∧
      (e = .unreadablePdf ∨
        e = .noTextInRange (extract_pdf_text_pages env.readPdf data a b).2.1) := by
  simp only [next_20_main]
  by_cases hz : (extract_pdf_text_pages env.readPdf data a b).2.1 = 0
  · rw [if_pos hz]
    exact ⟨.unreadablePdf, rfl, Or.inl rfl⟩
  · rw [if_neg hz]
    have hs : strip (extract_pdf_text_pages env.readPdf data a b).1 = "" := by
      rcases hrej with h | h
      · exfalso
        apply hz
        have hext : extract_pdf_text_pages env.readPdf data a b = ("", 0, 0, 0) := by
          unfold extract_pdf_text_pages
          rw [if_pos h]
        rw [hext]
      · exact h
    rw [if_pos hs]
    exact ⟨.noTextInRange _, rfl, Or.inr rfl⟩

/-! ### Claim C1 -/

/-- C1: a request that reuses a session id against a different document
fingerprint is rejected with the session-conflict response, whose message is
distinct from every other failure message; the store is exactly the
post-sweep store, and in particular the original session still holds its
accumulated question data unchanged. -/
theorem C1_session_conflict (env : Env) (now0 now1 now2 : Int) (sid : String)
    (data : List Nat) (sp ep : Option String) (a b : Int) (sessions : Store)
    (s : Session) (hsid : sid ≠ "") (hdata : data ≠ [])
    (hsp : parsePage sp = some a) (hep : parsePage ep = some b)
    (hlook : lookup (cleanup_sessions now0 sessions) sid = some s)
    (hconf : s.pdf_hash ≠ env.hashFn data) :
    next_20 env now0 now1 now2 ⟨some sid, some data, sp, ep⟩ sessions
        = (.failure .pdfMismatch, cleanup_sessions now0 sessions) ∧
    lookup (next_20 env now0 now1 now2 ⟨some sid, some data, sp, ep⟩ sessions).2 sid
        = some s ∧
    (∀ e : ApiError, e ≠ .pdfMismatch →
      (errorResponse .pdfMismatch).1 ≠ (errorResponse e).1) := by
  have heq : next_20 env now0 now1 now2 ⟨some sid, some data, sp, ep⟩ sessions
      = (.failure .pdfMismatch, cleanup_sessions now0 sessions) := by
    rw [next_20_valid_eq env now0 now1 now2 sid data sp ep a b sessions hsid hdata hsp hep,
      hlook]
    exact if_pos hconf
  refine ⟨heq, ?_, ?_⟩
  · rw [heq]
    exact hlook
  · intro e he
    cases e
    case pdfMismatch => exact absurd rfl he
    case noTextInRange n =>
      simp only [errorResponse]
      decide
    all_goals decide

theorem C1_witness :
    next_20 ⟨fun _ => ["text"], fun _ => 7, fun _ _ => []⟩ 0 0 5
        ⟨some "a", some [1], none, none⟩ [("a", ⟨9, [⟨some "Q", "", "", "", "", "A"⟩], 0⟩)]
      = (.failure .pdfMismatch,
          cleanup_sessions 0 [("a", ⟨9, [⟨some "Q", "", "", "", "", "A"⟩], 0⟩)]) ∧
    lookup (next_20 ⟨fun _ => ["text"], fun _ => 7, fun _ _ => []⟩ 0 0 5
        ⟨some "a", some [1], none, none⟩
        [("a", ⟨9, [⟨some "Q", "", "", "", "", "A"⟩], 0⟩)]).2 "a"
      = some ⟨9, [⟨some "Q", "", "", "", "", "A"⟩], 0⟩ := by
  have h := C1_session_conflict ⟨fun _ => ["text"], fun _ => 7, fun _ _ => []⟩ 0 0 5
    "a" [1] none none 1 1 [("a", ⟨9, [⟨some "Q", "", "", "", "", "A"⟩], 0⟩)]
    ⟨9, [⟨some "Q", "", "", "", "", "A"⟩], 0⟩
    (by decide) (by decide) (by decide) (by decide) (by decide) (by decide)
  exact ⟨h.1, h.2.1⟩

/-! ### Claim C2 -/

/-- C2 counterexample: an incremental request rejected with an InputError
(zero-page document) against a fresh session id *does* create state — the
store gains a session entry even though the request failed, while the
eviction sweep alone would have left the store empty. -/
theorem C2_counterexample :
    (next_20 ⟨fun _ => [], fun _ => 0, fun _ _ => []⟩ 0 0 0
        ⟨some "a", some [1], none, none⟩ []).1 = .failure .unreadablePdf ∧
    cleanup_sessions 0 [] = [] ∧
    (next_20 ⟨fun _ => [], fun _ => 0, fun _ _ => []⟩ 0 0 0
        ⟨some "a", some [1], none, none⟩ []).2 = [("a", ⟨0, [], 0⟩)] := by
  decide

/-- C2 (amended): a request rejected with an extraction InputError
(unreadable zero-page document, or empty extracted text) mutates no existing
session: when the session id is already bound (with matching fingerprint)
the store after the rejection is exactly the post-sweep store.  However,
when the session id was absent, the rejected request still creates a fresh
empty session bound to the document fingerprint, and that entry remains in
the store. -/
theorem C2_input_error_state (env : Env) (now0 now1 now2 : Int) (sid : String)
    (data : List Nat) (sp ep : Option String) (a b : Int) (sessions : Store)
    (hsid : sid ≠ "") (hdata : data ≠ [])
    (hsp : parsePage sp = some a) (hep : parsePage ep = some b)
    (hrej : (env.readPdf data).length = 0 ∨
      strip (extract_pdf_text_pages env.readPdf data a b).1 = "") :
    (∀ s, lookup (cleanup_sessions now0 sessions) sid = some s →
      s.pdf_hash = env.hashFn data →
      ∃ e, next_20 env now0 now1 now2 ⟨some sid, some data, sp, ep⟩ sessions
          = (.failure e, cleanup_sessions now0 sessions)) ∧
    (lookup (cleanup_sessions now0 sessions) sid = none →
      ∃ e, next_20 env now0 now1 now2 ⟨some sid, some data, sp, ep⟩ sessions
          = (.failure e,
            cleanup_sessions now0 sessions ++ [(sid, ⟨env.hashFn data, [], now1⟩)])) := by
  constructor
  · intro s hl hm
    obtain ⟨e, hmain, _⟩ := next_20_main_rejects env now2 sid data a b s
      (cleanup_sessions now0 sessions) hrej
    refine ⟨e, ?_⟩
    have heq : next_20 env now0 now1 now2 ⟨some sid, some data, sp, ep⟩ sessions
        = next_20_main env now2 sid data a b s (cleanup_sessions now0 sessions) := by
      rw [next_20_valid_eq env now0 now1 now2 sid data sp ep a b sessions hsid hdata hsp hep,
        hl]
      exact if_neg (fun hne => hne hm)
    rw [heq, hmain]
  · intro hl
    obtain ⟨e, hmain, _⟩ := next_20_main_rejects env now2 sid data a b
      ⟨env.hashFn data, [], now1⟩
      (cleanup_sessions now0 sessions ++ [(sid, ⟨env.hashFn data, [], now1⟩)]) hrej
    refine ⟨e, ?_⟩
    have heq : next_20 env now0 now1 now2 ⟨some sid, some data, sp, ep⟩ sessions
        = next_20_main env now2 sid data a b ⟨env.hashFn data, [], now1⟩
          (cleanup_sessions now0 sessions ++ [(sid, ⟨env.hashFn data, [], now1⟩)]) := by
      rw [next_20_valid_eq env now0 now1 now2 sid data sp ep a b sessions hsid hdata hsp hep,
        hl]
    rw [heq, hmain]

theorem C2_witness :
    ∃ e, next_20 ⟨fun _ => [], fun _ => 0, fun _ _ => []⟩ 0 0 0
        ⟨some "a", some [1], none, none⟩ []
      = (.failure e, cleanup_sessions 0 [] ++ [("a", ⟨0, [], 0⟩)]) :=
  (C2_input_error_state ⟨fun _ => [], fun _ => 0, fun _ _ => []⟩ 0 0 0 "a" [1]
    none none 1 1 [] (by decide) (by decide) (by decide) (by decide)
    (Or.inl (by decide))).2 (by decide)

/-! ### Claim C7 -/

/-- C7: every successful incremental request answers with the session's full
accumulated MCQ sequence — the prior entries followed by the newly added
ones — the count of questions newly added this call (the length of the
deduped-new subset), the total page count of the document, and the effective
page range actually used; this holds both for an existing matching session
and for a freshly created one. -/
theorem C7_success_response (env : Env) (now0 now1 now2 : Int) (sid : String)
    (data : List Nat) (sp ep : Option String) (a b : Int) (sessions : Store)
    (hsid : sid ≠ "") (hdata : data ≠ [])
    (hsp : parsePage sp = some a) (hep : parsePage ep = some b)
    (hreadable : (extract_pdf_text_pages env.readPdf data a b).2.1 ≠ 0)
    (htext : strip (extract_pdf_text_pages env.readPdf data a b).1 ≠ "") :
    (∀ s, lookup (cleanup_sessions now0 sessions) sid = some s →
      s.pdf_hash = env.hashFn data →
      next_20 env now0 now1 now2 ⟨some sid, some data, sp, ep⟩ sessions
        = (.success
            (s.mcq ++ dedupe s.mcq (generate_next_20_from_text env.model
              (extract_pdf_text_pages env.readPdf data a b).1 (s.mcq.map getPrompt)))
            (dedupe s.mcq (generate_next_20_from_text env.model
              (extract_pdf_text_pages env.readPdf data a b).1
              (s.mcq.map getPrompt))).length
            (extract_pdf_text_pages env.readPdf data a b).2.1
            (extract_pdf_text_pages env.readPdf data a b).2.2.1
            (extract_pdf_text_pages env.readPdf data a b).2.2.2,
          update (cleanup_sessions now0 sessions) sid
            ⟨s.pdf_hash,
              s.mcq ++ dedupe s.mcq (generate_next_20_from_text env.model
                (extract_pdf_text_pages env.readPdf data a b).1 (s.mcq.map getPrompt)),
              now2⟩)) ∧
    (lookup (cleanup_sessions now0 sessions) sid = none →
      next_20 env now0 now1 now2 ⟨some sid, some data, sp, ep⟩ sessions
        = (.success
            ([] ++ dedupe [] (generate_next_20_from_text env.model
              (extract_pdf_text_pages env.readPdf data a b).1 []))
            (dedupe [] (generate_next_20_from_text env.model
              (extract_pdf_text_pages env.readPdf data a b).1 [])).length
            (extract_pdf_text_pages env.readPdf data a b).2.1
            (extract_pdf_text_pages env.readPdf data a b).2.2.1
            (extract_pdf_text_pages env.readPdf data a b).2.2.2,
          update (cleanup_sessions now0 sessions ++ [(sid, ⟨env.hashFn data, [], now1⟩)])
            sid
            ⟨env.hashFn data,
              [] ++ dedupe [] (generate_next_20_from_text env.model
                (extract_pdf_text_pages env.readPdf data a b).1 []),
              now2⟩)) := by
  constructor
  · intro s hl hm
    have heq : next_20 env now0 now1 now2 ⟨some sid, some data, sp, ep⟩ sessions
        = next_20_main env now2 sid data a b s (cleanup_sessions now0 sessions) := by
      rw [next_20_valid_eq env now0 now1 now2 sid data sp ep a b sessions hsid hdata hsp hep,
        hl]
      exact if_neg (fun hne => hne hm)
    rw [heq, next_20_main_success env now2 sid data a b s
      (cleanup_sessions now0 sessions) hreadable htext]
  · intro hl
    have heq : next_20 env now0 now1 now2 ⟨some sid, some data, sp, ep⟩ sessions
        = next_20_main env now2 sid data a b ⟨env.hashFn data, [], now1⟩
          (cleanup_sessions now0 sessions ++ [(sid, ⟨env.hashFn data, [], now1⟩)]) := by
      rw [next_20_valid_eq env now0 now1 now2 sid data sp ep a b sessions hsid hdata hsp hep,
        hl]
    rw [heq]
    exact next_20_main_success env now2 sid data a b ⟨env.hashFn data, [], now1⟩
      (cleanup_sessions now0 sessions ++ [(sid, ⟨env.hashFn data, [], now1⟩)])
      hreadable htext

theorem C7_witness :
    next_20 ⟨fun _ => ["text"], fun _ => 7,
        fun _ _ => [⟨some "Q1", "", "", "", "", "A"⟩]⟩ 0 0 5
      ⟨some "a", some [1], none, none⟩ [("a", ⟨7, [], 0⟩)]
    = (.success [⟨some "Q1", "", "", "", "", "A"⟩] 1 1 1 1,
        [("a", ⟨7, [⟨some "Q1", "", "", "", "", "A"⟩], 5⟩)]) := by
  have h := (C7_success_response
    ⟨fun _ => ["text"], fun _ => 7, fun _ _ => [⟨some "Q1", "", "", "", "", "A"⟩]⟩
    0 0 5 "a" [1] none none 1 1 [("a", ⟨7, [], 0⟩)]
    (by decide) (by decide) (by decide) (by decide) (by decide) (by decide)).1
    ⟨7, [], 0⟩ (by decide) (by decide)
  rw [h]
  decide

/-! ### Claim C3 -/

/-- C3: the newly-added subset returned by the dedupe-extend step has
normalisation keys disjoint from the existing sequence's keys, and on a
successful request the session's accumulated sequence is grown by appending
exactly that subset — the existing entries are kept unchanged as a prefix,
never replaced. -/
theorem C3_extend_disjoint_append (env : Env) (now0 now1 now2 : Int) (sid : String)
    (data : List Nat) (sp ep : Option String) (a b : Int) (sessions : Store)
    (hsid : sid ≠ "") (hdata : data ≠ [])
    (hsp : parsePage sp = some a) (hep : parsePage ep = some b)
    (hreadable : (extract_pdf_text_pages env.readPdf data a b).2.1 ≠ 0)
    (htext : strip (extract_pdf_text_pages env.readPdf data a b).1 ≠ "") :
    (∀ (existing_mcq incoming : List Question) (q : Question),
      q ∈ dedupe existing_mcq incoming → qkey q ∉ existing_mcq.map qkey) ∧
    (∀ s, lookup (cleanup_sessions now0 sessions) sid = some s →
      s.pdf_hash = env.hashFn data →
      lookup (next_20 env now0 now1 now2 ⟨some sid, some data, sp, ep⟩ sessions).2 sid
        = some ⟨s.pdf_hash,
            s.mcq ++ dedupe s.mcq (generate_next_20_from_text env.model
              (extract_pdf_text_pages env.readPdf data a b).1 (s.mcq.map getPrompt)),
            now2⟩) := by
  constructor
  · intro existing_mcq incoming q hq
    exact (mem_dedupeGo_key hq).2
  · intro s hl hm
    have heq : next_20 env now0 now1 now2 ⟨some sid, some data, sp, ep⟩ sessions
        = next_20_main env now2 sid data a b s (cleanup_sessions now0 sessions) := by
      rw [next_20_valid_eq env now0 now1 now2 sid data sp ep a b sessions hsid hdata hsp hep,
        hl]
      exact if_neg (fun hne => hne hm)
    rw [heq, next_20_main_success env now2 sid data a b s
      (cleanup_sessions now0 sessions) hreadable htext]
    show lookup (update (cleanup_sessions now0 sessions) sid _) sid = _
    rw [lookup_update, hl]
    rfl

theorem C3_witness :
    qkey (⟨some "Q1", "", "", "", "", "A"⟩ : Question) ∉
      ([⟨some "other", "", "", "", "", "B"⟩] : List Question).map qkey ∧
    lookup (next_20 ⟨fun _ => ["text"], fun _ => 7,
        fun _ _ => [⟨some "Q1", "", "", "", "", "A"⟩]⟩ 0 0 5
      ⟨some "a", some [1], none, none⟩ [("a", ⟨7, [], 0⟩)]).2 "a"
    = some ⟨7, [⟨some "Q1", "", "", "", "", "A"⟩], 5⟩ := by
  have h := C3_extend_disjoint_append
    ⟨fun _ => ["text"], fun _ => 7, fun _ _ => [⟨some "Q1", "", "", "", "", "A"⟩]⟩
    0 0 5 "a" [1] none none 1 1 [("a", ⟨7, [], 0⟩)]
    (by decide) (by decide) (by decide) (by decide) (by decide) (by decide)
  constructor
  · exact h.1 [⟨some "other", "", "", "", "", "B"⟩]
      [⟨some "Q1", "", "", "", "", "A"⟩] ⟨some "Q1", "", "", "", "", "A"⟩ (by decide)
  · have h2 := h.2 ⟨7, [], 0⟩ (by decide) (by decide)
    rw [h2]
    decide

/-! ### Claim C10 -/

/-- C10: an absent start-page or end-page form field defaults to `"1"`, so a
request with no page range behaves exactly like one with range (1, 1) and,
on a readable document, operates on page 1 only: the effective range is
(1, 1) and the extracted text comes from the first page alone. -/
theorem C10_missing_page_fields_default (env : Env) (now0 now1 now2 : Int)
    (sid : String) (data : List Nat) (sessions : Store) :
    parsePage none = some 1 ∧
    next_20 env now0 now1 now2 ⟨some sid, some data, none, none⟩ sessions
      = next_20 env now0 now1 now2 ⟨some sid, some data, some "1", some "1"⟩ sessions ∧
    (0 < (env.readPdf data).length →
      (extract_pdf_text_pages env.readPdf data 1 1).2.2.1 = 1 ∧
      (extract_pdf_text_pages env.readPdf data 1 1).2.2.2 = 1 ∧
      (extract_pdf_text_pages env.readPdf data 1 1).1
        = String.intercalate "\n\n"
          ((((env.readPdf data).take 1).map (fun t => strip t)).filter
            (fun t => t != ""))) := by
  refine ⟨rfl, rfl, ?_⟩
  intro hlen
  have h1 : max 1 (min 1 ((env.readPdf data).length : Int)) = 1 := by
    rw [Int.min_def, Int.max_def]
    split_ifs <;> omega
  have hext : extract_pdf_text_pages env.readPdf data 1 1
      = (String.intercalate "\n\n"
          ((((env.readPdf data).take 1).map (fun t => strip t)).filter
            (fun t => t != "")),
        (env.readPdf data).length, 1, 1) := by
    simp only [extract_pdf_text_pages]
    rw [if_neg (by omega), h1, if_neg (by omega)]
    rw [show ((1 : Int) - 1).toNat = 0 from rfl, show ((1 : Int) - 1 + 1).toNat = 1 from rfl,
      List.drop_zero]
  rw [hext]
  exact ⟨rfl, rfl, rfl⟩

theorem C10_witness :
    parsePage none = some 1 ∧
    (extract_pdf_text_pages (fun _ => ["one", "two"]) [] 1 1).2.2.1 = 1 ∧
    (extract_pdf_text_pages (fun _ => ["one", "two"]) [] 1 1).2.2.2 = 1 ∧
    (extract_pdf_text_pages (fun _ => ["one", "two"]) [] 1 1).1 = "one" := by
  have h := C10_missing_page_fields_default
    ⟨fun _ => ["one", "two"], fun _ => 0, fun _ _ => []⟩ 0 0 0 "a" [] []
  have h3 := h.2.2 (by decide)
  refine ⟨h.1, h3.1, h3.2.1, ?_⟩
  rw [h3.2.2]
  decide

/-! ### Claim C9 -/

theorem storeInv_cleanup (now : Int) (sessions : Store) (hinv : StoreInv sessions) :
    StoreInv (cleanup_sessions now sessions) :=
  fun kv h => hinv kv (cleanup_subset now sessions kv h)

theorem storeInv_reset (now : Int) (rsid : Option String) (sessions : Store)
    (hinv : StoreInv sessions) : StoreInv (reset now rsid sessions) := by
  unfold reset
  by_cases h : rsid.getD "" = ""
  · rw [if_pos h]
    exact storeInv_cleanup now sessions hinv
  · rw [if_neg h]
    intro kv hkv
    exact storeInv_cleanup now sessions hinv kv (List.mem_filter.mp hkv).1

theorem sessionInv_extend (s : Session) (hs : SessionInv s) (X : List Question)
    (h : Int) (t : Int) : SessionInv ⟨h, s.mcq ++ dedupe s.mcq X, t⟩ := by
  constructor
  · show ((s.mcq ++ dedupe s.mcq X).map qkey).Nodup
    rw [List.map_append, List.nodup_append]
    refine ⟨hs.1, dedupeGo_keys_nodup _ _, ?_⟩
    intro x hx1 hx2
    obtain ⟨q, hq, rfl⟩ := List.mem_map.mp hx2
    exact (mem_dedupeGo_key hq).2 hx1
  · intro q hq
    rcases List.mem_append.mp hq with hm | hm
    · exact hs.2 q hm
    · exact (mem_dedupeGo_key hm).1

theorem storeInv_main (env : Env) (now2 : Int) (sid : String) (data : List Nat)
    (a b : Int) (s : Session) (st : Store) (hst : StoreInv st) (hs : SessionInv s) :
    StoreInv (next_20_main env now2 sid data a b s st).2 := by
  simp only [next_20_main]
  by_cases h1 : (extract_pdf_text_pages env.readPdf data a b).2.1 = 0
  · rw [if_pos h1]
    exact hst
  · rw [if_neg h1]
    by_cases h2 : strip (extract_pdf_text_pages env.readPdf data a b).1 = ""
    · rw [if_pos h2]
      exact hst
    · rw [if_neg h2]
      intro kv hkv
      obtain ⟨kv0, hkv0, rfl⟩ := List.mem_map.mp hkv
      by_cases h : (kv0.1 == sid) = true
      · rw [if_pos h]
        exact sessionInv_extend s hs _ _ _
      · rw [if_neg h]
        exact hst kv0 hkv0

/-- C9: the store invariant — every stored session's accumulated sequence
has pairwise-distinct, non-empty normalisation keys — is preserved by every
store operation: the eviction sweep, the reset handler, and the `next-20`
handler (session creation and dedupe-extend included). -/
theorem C9_store_invariant (env : Env) (now0 now1 now2 nowr nowc : Int) (req : Req)
    (rsid : Option String) (sessions : Store) (hinv : StoreInv sessions) :
    StoreInv (cleanup_sessions nowc sessions) ∧
    StoreInv (reset nowr rsid sessions) ∧
    StoreInv (next_20 env now0 now1 now2 req sessions).2 := by
  refine ⟨storeInv_cleanup nowc sessions hinv, storeInv_reset nowr rsid sessions hinv, ?_⟩
  have hc : StoreInv (cleanup_sessions now0 sessions) :=
    storeInv_cleanup now0 sessions hinv
  simp only [next_20]
  by_cases h1 : req.session_id.getD "" = ""
  · rw [if_pos h1]
    exact hc
  · rw [if_neg h1]
    cases hpdf : req.pdf with
    | none => exact hc
    | some data =>
      dsimp only []
      by_cases h2 : data = []
      · rw [if_pos h2]
        exact hc
      · rw [if_neg h2]
        cases hsp : parsePage req.start_page with
        | none => exact hc
        | some a =>
          cases hep : parsePage req.end_page with
          | none => exact hc
          | some b =>
            dsimp only []
            cases hlook : lookup (cleanup_sessions now0 sessions)
                (req.session_id.getD "") with
            | none =>
              apply storeInv_main
              · intro kv hkv
                rcases List.mem_append.mp hkv with hm | hm
                · exact hc kv hm
                · have : kv = (req.session_id.getD "", ⟨env.hashFn data, [], now1⟩) := by
                    simpa using hm
                  rw [this]
                  exact ⟨by simp, by simp⟩
              · exact ⟨by simp, by simp⟩
            | some s =>
              dsimp only []
              by_cases hm : s.pdf_hash ≠ env.hashFn data
              · rw [if_pos hm]
                exact hc
              · rw [if_neg hm]
                apply storeInv_main
                · exact hc
                · obtain ⟨kv, hkvmem, hkv2⟩ := lookup_some_mem hlook
                  exact hkv2 ▸ hc kv hkvmem

theorem C9_witness :
    StoreInv ([("a", ⟨1, [⟨some "Q", "", "", "", "", "A"⟩], 0⟩)] : Store) ∧
    StoreInv (next_20 ⟨fun _ => ["text"], fun _ => 7,
        fun _ _ => [⟨some "Q1", "", "", "", "", "A"⟩]⟩ 0 0 5
      ⟨some "a", some [1], none, none⟩ [("a", ⟨7, [], 0⟩)]).2 := by
  have hbase : StoreInv ([("a", ⟨7, [], 0⟩)] : Store) := by
    intro kv hkv
    have : kv = ("a", ⟨7, [], 0⟩) := by simpa using hkv
    rw [this]
    exact ⟨by simp, by simp⟩
  refine ⟨?_, (C9_store_invariant ⟨fun _ => ["text"], fun _ => 7,
    fun _ _ => [⟨some "Q1", "", "", "", "", "A"⟩]⟩ 0 0 5 0 0
    ⟨some "a", some [1], none, none⟩ none [("a", ⟨7, [], 0⟩)] hbase).2.2⟩
  intro kv hkv
  have : kv = ("a", ⟨1, [⟨some "Q", "", "", "", "", "A"⟩], 0⟩) := by simpa using hkv
  rw [this]
  refine ⟨by simp, ?_⟩
  intro q hq
  have : q = ⟨some "Q", "", "", "", "", "A"⟩ := by simpa using hq
  rw [this]
  decide

end Server
